import Mathlib

/-!
Verification of the shorts-creator core: the segment-timestamp resolver
(`shorts_generator._add_timestamps_to_shorts`), the caption timing engine and
two-line wrapper (`video_effect.CaptionsEffect`), the speed and aspect-ratio
effects (`video_effect.IncreaseVideoSpeedEffect`, `VideoRatioConversionEffect`)
and the effect-pipeline executor (`video_effect_service.apply_effects`).

Python floats are embedded as exact rationals (ℚ), Python ints as ℤ/ℕ, and
Python strings as Lean strings manipulated through their character lists, with
helper functions that reproduce the exact semantics of the `str` methods the
source uses (`split`, `strip`, slicing with a possibly negative stop index,
`int()` truncation).
-/

/-- `str.split()` with no argument: split on runs of whitespace, dropping empty
pieces. The accumulator holds the current word's characters in reverse. -/
def pySplitAux : List Char → List Char → List String
  | [], acc => if acc = [] then [] else [String.mk acc.reverse]
  | c :: rest, acc =>
      if c.isWhitespace then
        if acc = [] then pySplitAux rest []
        else String.mk acc.reverse :: pySplitAux rest []
      else pySplitAux rest (c :: acc)

/-- Python `text.split()`. -/
def pySplit (s : String) : List String :=
  pySplitAux s.data []

/-- Python `text.strip()`: drop whitespace from both ends. -/
def pyStripWs (s : String) : String :=
  String.mk (((s.data.dropWhile Char.isWhitespace).reverse.dropWhile
    Char.isWhitespace).reverse)

/-- Python `text.strip(chars)`: drop characters of `chars` from BOTH ends
(leading and trailing). -/
def pyStrip (chars : List Char) (s : String) : String :=
  String.mk (((s.data.dropWhile (fun c => c ∈ chars)).reverse.dropWhile
    (fun c => c ∈ chars)).reverse)

/-- Dropping characters of `chars` from the trailing end only (this is NOT what
Python `str.strip(chars)` does; it is used to state the spec's reading of the
word-weight formula for comparison). -/
def pyStripTrailing (chars : List Char) (s : String) : String :=
  String.mk ((s.data.reverse.dropWhile (fun c => c ∈ chars)).reverse)

/-- Python `" ".join(words)`. -/
def joinSpace : List String → String
  | [] => ""
  | [w] => w
  | w :: next :: rest => w ++ " " ++ joinSpace (next :: rest)

/-- Python `s[:n]` where `n` may be negative: a negative stop index counts from
the end of the string (clamped at 0). -/
def pySliceTo (s : String) (n : ℤ) : String :=
  if 0 ≤ n then String.mk (s.data.take n.toNat)
  else String.mk (s.data.take (s.data.length - n.natAbs))

/-- Python `int(q)`: truncation toward zero. -/
def pyInt (q : ℚ) : ℤ :=
  if 0 ≤ q then ⌊q⌋ else -⌊-q⌋

/-! ## Domain model (`shorts_creator.domain.models`) -/

/-- `SpeechSegment`: one transcript segment with absolute times in seconds. -/
structure SpeechSegment where
  start_time : ℚ
  end_time : ℚ
  text : String
deriving DecidableEq

/-- `Speech`: a whole transcript. -/
structure Speech where
  language : String
  duration_seconds : ℚ
  segments : List SpeechSegment
deriving DecidableEq

/-- `YouTubeShort`: an LLM candidate, a 0-based inclusive segment-index range
plus carried metadata. Indices are Python ints, hence ℤ. -/
structure YouTubeShort where
  title : String
  subscribe_subtitle : String
  start_segment_index : ℤ
  end_segment_index : ℤ
  description : String
  estimated_duration : String
  tags : List String
deriving DecidableEq

/-- `YouTubeShortWithSpeech`: the candidate plus the fields the resolver adds
(`speech`, `start_time`, `end_time`) when building the validated dict in
`_add_timestamps_to_shorts`. -/
structure YouTubeShortWithSpeech extends YouTubeShort where
  speech : List SpeechSegment
  start_time : ℚ
  end_time : ℚ
deriving DecidableEq

/-! ## Segment timestamp resolver (`shorts_generator._add_timestamps_to_shorts`) -/

/-- Placeholder for list indexing; the resolver only indexes after validating
the range, so the default is never read on the validated path. -/
def defaultSegment : SpeechSegment :=
  { start_time := 0, end_time := 0, text := "" }

/-- The rejection test of `_add_timestamps_to_shorts`, exactly as written:
`start_segment_index < 0 or end_segment_index >= len(segments) or
start_segment_index > end_segment_index`. -/
def rangeInvalid (speech : Speech) (short : YouTubeShort) : Prop :=
  short.start_segment_index < 0 ∨
    short.end_segment_index ≥ (speech.segments.length : ℤ) ∨
    short.start_segment_index > short.end_segment_index

instance (speech : Speech) (short : YouTubeShort) :
    Decidable (rangeInvalid speech short) := by
  unfold rangeInvalid
  exact inferInstance

/-- The resolved short built for a valid candidate: the speech slice
`segments[start : end+1]` is copied as-is (the segments keep their ABSOLUTE
times; no re-expression happens here), `start_time`/`end_time` are read off the
boundary segments. -/
def resolveShortWithSpeech (speech : Speech) (short : YouTubeShort) :
    YouTubeShortWithSpeech :=
  { toYouTubeShort := short
    speech := (speech.segments.drop short.start_segment_index.toNat).take
      (short.end_segment_index.toNat + 1 - short.start_segment_index.toNat)
    start_time :=
      (speech.segments.getD short.start_segment_index.toNat defaultSegment).start_time
    end_time :=
      (speech.segments.getD short.end_segment_index.toNat defaultSegment).end_time }

/-- One loop iteration of `_add_timestamps_to_shorts`: `continue` (with a
logged warning) on an invalid range, else append the resolved short. -/
def resolveCandidate (speech : Speech) (short : YouTubeShort) :
    Option YouTubeShortWithSpeech :=
  if rangeInvalid speech short then none
  else some (resolveShortWithSpeech speech short)

/-- `_add_timestamps_to_shorts` over the candidate list of the analysis. -/
def addTimestampsToShorts (shorts : List YouTubeShort) (speech : Speech) :
    List YouTubeShortWithSpeech :=
  shorts.filterMap (resolveCandidate speech)

/-- Modelled from the spec: the rejection condition as the spec states it,
`start_idx > end_idx`, or either index out of `[0, len-1]`. Stated separately
from `rangeInvalid` (the code's test) so the two can be compared. -/
def specRejects (speech : Speech) (short : YouTubeShort) : Prop :=
  short.start_segment_index > short.end_segment_index ∨
    short.start_segment_index < 0 ∨
    short.start_segment_index > (speech.segments.length : ℤ) - 1 ∨
    short.end_segment_index < 0 ∨
    short.end_segment_index > (speech.segments.length : ℤ) - 1

instance (speech : Speech) (short : YouTubeShort) :
    Decidable (specRejects speech short) := by
  unfold specRejects
  exact inferInstance

/-! ## Resolver slice lemmas -/

lemma slice_head? (l : List SpeechSegment) (s n : ℕ) (hn : 0 < n) :
    ((l.drop s).take n).head? = l[s]? := by
  rw [List.head?_eq_getElem?]
  rw [List.getElem?_take]
  rw [if_pos hn]
  rw [List.getElem?_drop]
  congr 1

lemma slice_getLast? (l : List SpeechSegment) (s e : ℕ) (hse : s ≤ e)
    (he : e < l.length) : ((l.drop s).take (e + 1 - s)).getLast? = l[e]? := by
  have hlen : ((l.drop s).take (e + 1 - s)).length = e + 1 - s := by
    rw [List.length_take, List.length_drop]
    omega
  rw [List.getLast?_eq_getElem?, hlen]
  have h1 : e + 1 - s - 1 = e - s := by omega
  rw [h1, List.getElem?_take, if_pos (by omega), List.getElem?_drop]
  congr 1
  omega

/-- Claim C6 (confirmed): a candidate is rejected iff its index range is
invalid in the spec's sense (`start > end` or either index outside
`[0, len-1]`), and the resolver is total over the batch: its output is exactly
the valid candidates, in order, resolved — invalid ones are dropped and
processing continues. -/
theorem resolver_rejection_iff_C6 (speech : Speech) (shorts : List YouTubeShort) :
    addTimestampsToShorts shorts speech =
      (shorts.filter (fun short => decide (¬ specRejects speech short))).map
        (resolveShortWithSpeech speech) ∧
    ∀ short : YouTubeShort,
      resolveCandidate speech short = none ↔ specRejects speech short := by
  constructor
  · induction shorts with
    | nil => rfl
    | cons hd tl ih =>
        by_cases h : rangeInvalid speech hd
        · have hr : specRejects speech hd := by
            unfold rangeInvalid at h
            unfold specRejects
            omega
          simp only [addTimestampsToShorts, List.filterMap_cons, List.filter_cons] at *
          rw [resolveCandidate, if_pos h]
          simp [hr, ih]
        · have hr : ¬ specRejects speech hd := by
            unfold rangeInvalid at h
            unfold specRejects
            omega
          simp only [addTimestampsToShorts, List.filterMap_cons, List.filter_cons] at *
          rw [resolveCandidate, if_neg h]
          simp [hr, ih]
  · intro short
    unfold resolveCandidate
    by_cases h : rangeInvalid speech short
    · rw [if_pos h]
      simp only [true_iff]
      unfold rangeInvalid at h
      unfold specRejects
      omega
    · rw [if_neg h]
      have hr : ¬ specRejects speech short := by
        unfold rangeInvalid at h
        unfold specRejects
        omega
      simp [hr]

/-- Claim C2 (amended): for a valid range the resolver accepts and produces
`start_time = segments[start].start_time`, `end_time = segments[end].end_time`
and `speech = segments[start .. end]` — the slice keeps the segments' ABSOLUTE
times (no re-expression relative to `start_time` happens in the resolver; the
captions effect performs that offset later). Consequently the slice's first
segment's absolute start equals `start_time` and its last segment's absolute
end equals `end_time`. -/
theorem resolver_slice_absolute_C2 (speech : Speech) (short : YouTubeShort)
    (h0 : 0 ≤ short.start_segment_index)
    (h1 : short.start_segment_index ≤ short.end_segment_index)
    (h2 : short.end_segment_index < (speech.segments.length : ℤ)) :
    resolveCandidate speech short = some (resolveShortWithSpeech speech short) ∧
    (resolveShortWithSpeech speech short).start_time =
      (speech.segments.getD short.start_segment_index.toNat defaultSegment).start_time ∧
    (resolveShortWithSpeech speech short).end_time =
      (speech.segments.getD short.end_segment_index.toNat defaultSegment).end_time ∧
    (resolveShortWithSpeech speech short).speech =
      (speech.segments.drop short.start_segment_index.toNat).take
        (short.end_segment_index.toNat + 1 - short.start_segment_index.toNat) ∧
    (resolveShortWithSpeech speech short).speech.head?.map (fun sg => sg.start_time) =
      some (resolveShortWithSpeech speech short).start_time ∧
    (resolveShortWithSpeech speech short).speech.getLast?.map (fun sg => sg.end_time) =
      some (resolveShortWithSpeech speech short).end_time := by
  have hs : short.start_segment_index.toNat < speech.segments.length := by omega
  have he : short.end_segment_index.toNat < speech.segments.length := by omega
  have hse : short.start_segment_index.toNat ≤ short.end_segment_index.toNat := by
    omega
  have hvalid : ¬ rangeInvalid speech short := by
    unfold rangeInvalid
    omega
  refine ⟨by rw [resolveCandidate, if_neg hvalid], rfl, rfl, rfl, ?_, ?_⟩
  · show ((speech.segments.drop short.start_segment_index.toNat).take
        (short.end_segment_index.toNat + 1 - short.start_segment_index.toNat)).head?.map
          (fun sg => sg.start_time) = _
    rw [slice_head? speech.segments short.start_segment_index.toNat _ (by omega)]
    rw [List.getElem?_eq_getElem hs]
    show some (speech.segments[short.start_segment_index.toNat].start_time) =
      some ((speech.segments.getD short.start_segment_index.toNat defaultSegment).start_time)
    rw [List.getD_eq_getElem?_getD, List.getElem?_eq_getElem hs]
    rfl
  · show ((speech.segments.drop short.start_segment_index.toNat).take
        (short.end_segment_index.toNat + 1 - short.start_segment_index.toNat)).getLast?.map
          (fun sg => sg.end_time) = _
    rw [slice_getLast? speech.segments short.start_segment_index.toNat
      short.end_segment_index.toNat hse he]
    rw [List.getElem?_eq_getElem he]
    show some (speech.segments[short.end_segment_index.toNat].end_time) =
      some ((speech.segments.getD short.end_segment_index.toNat defaultSegment).end_time)
    rw [List.getD_eq_getElem?_getD, List.getElem?_eq_getElem he]
    rfl

/-- Concrete transcript for settling C2: two segments with absolute times
starting at 10s. -/
def c2Speech : Speech :=
  { language := "en", duration_seconds := 15,
    segments := [{ start_time := 10, end_time := 12, text := "a" },
                 { start_time := 12, end_time := 15, text := "b" }] }

/-- Concrete candidate covering both segments of `c2Speech`. -/
def c2Candidate : YouTubeShort :=
  { title := "t", subscribe_subtitle := "s", start_segment_index := 0,
    end_segment_index := 1, description := "d", estimated_duration := "30s",
    tags := [] }

/-- Claim C2 (counterexample): for the resolved short over `c2Speech` with
`start_time = 10`, the slice's first entry still carries absolute start time
10, not the claimed re-expressed local time `10 - 10 = 0`. -/
theorem resolver_slice_absolute_C2_cex :
    ((addTimestampsToShorts [c2Candidate] c2Speech).head?.bind
        (fun r => r.speech.head?.map (fun sg => sg.start_time))) = some 10 ∧
    ((addTimestampsToShorts [c2Candidate] c2Speech).head?.map
        (fun r => r.start_time)) = some 10 ∧
    (10 : ℚ) ≠ 10 - 10 := by
  refine ⟨rfl, rfl, by norm_num⟩

/-- Claim C2 witness: the amended theorem applied to `c2Speech`/`c2Candidate`. -/
theorem resolver_slice_absolute_C2_w :
    resolveCandidate c2Speech c2Candidate =
      some (resolveShortWithSpeech c2Speech c2Candidate) ∧
    (resolveShortWithSpeech c2Speech c2Candidate).start_time =
      (c2Speech.segments.getD c2Candidate.start_segment_index.toNat defaultSegment).start_time ∧
    (resolveShortWithSpeech c2Speech c2Candidate).end_time =
      (c2Speech.segments.getD c2Candidate.end_segment_index.toNat defaultSegment).end_time ∧
    (resolveShortWithSpeech c2Speech c2Candidate).speech =
      (c2Speech.segments.drop c2Candidate.start_segment_index.toNat).take
        (c2Candidate.end_segment_index.toNat + 1 - c2Candidate.start_segment_index.toNat) ∧
    (resolveShortWithSpeech c2Speech c2Candidate).speech.head?.map (fun sg => sg.start_time) =
      some (resolveShortWithSpeech c2Speech c2Candidate).start_time ∧
    (resolveShortWithSpeech c2Speech c2Candidate).speech.getLast?.map (fun sg => sg.end_time) =
      some (resolveShortWithSpeech c2Speech c2Candidate).end_time :=
  resolver_slice_absolute_C2 c2Speech c2Candidate (by decide) (by decide) (by decide)

/-! ## Caption timing engine (`CaptionsEffect._calculate_word_timings`) -/

/-- The punctuation characters of `word.strip(".,!?;:")` and the
punctuation-bonus test. -/
def punctChars : List Char := ['.', ',', '!', '?', ';', ':']

/-- Per-word weight of `_calculate_word_timings`:
`1.0 + len(word.strip(".,!?;:")) * 0.08 + (0.1 if any(c in word for c in ".,!?;:") else 0)`.
Note `str.strip` removes the characters from BOTH ends of the word. -/
def wordWeight (word : String) : ℚ :=
  let baseWeight : ℚ := 1
  let charWeight : ℚ := ((pyStrip punctChars word).length : ℚ) * (8 / 100)
  let punctWeight : ℚ :=
    if punctChars.any (fun c => c ∈ word.data) then 1 / 10 else 0
  baseWeight + charWeight + punctWeight

/-- Modelled from the spec: the word-weight formula as the spec words it, with
the word stripped of TRAILING punctuation only; stated for comparison with
`wordWeight` (the code's formula, which strips both ends). -/
def specWordWeightTrailing (word : String) : ℚ :=
  1 + ((pyStripTrailing punctChars word).length : ℚ) * (8 / 100) +
    (if punctChars.any (fun c => c ∈ word.data) then 1 / 10 else 0)

/-- The word-weight formula with the word stripped of punctuation at both
ends, following the spec's sentence amended to match `str.strip`. -/
def specWordWeightBoth (word : String) : ℚ :=
  1 + ((pyStrip punctChars word).length : ℚ) * (8 / 100) +
    (if punctChars.any (fun c => c ∈ word.data) then 1 / 10 else 0)

/-- The proportional-allocation loop of `_calculate_word_timings`: walk the
(word, weight) pairs forward from `cur`, giving each word
`weight / total * segDur` seconds, and force the final word's end to `endT`. -/
def allocateTimings (total segDur endT : ℚ) :
    List (String × ℚ) → ℚ → List (String × ℚ × ℚ)
  | [], _ => []
  | [(w, _)], cur => [(w, cur, endT)]
  | (w, wt) :: next :: rest, cur =>
      (w, cur, cur + wt / total * segDur) ::
        allocateTimings total segDur endT (next :: rest) (cur + wt / total * segDur)

/-- `CaptionsEffect._calculate_word_timings(text, start_time, end_time)`. -/
def calculateWordTimings (text : String) (startTime endTime : ℚ) :
    List (String × ℚ × ℚ) :=
  let words := pySplit text
  if words = [] then []
  else
    let segmentDuration := endTime - startTime
    if segmentDuration < 3 / 10 then [(text, startTime, endTime)]
    else
      let wordWeights := words.map wordWeight
      let totalWeight := wordWeights.sum
      allocateTimings totalWeight segmentDuration endTime
        (words.zip wordWeights) startTime

/-! ## Allocator lemmas -/

lemma allocateTimings_ne_nil (total segDur endT : ℚ) :
    ∀ (l : List (String × ℚ)) (cur : ℚ), l ≠ [] →
      allocateTimings total segDur endT l cur ≠ []
  | [(w, wt)], cur, _ => by simp [allocateTimings]
  | (w, wt) :: next :: rest, cur, _ => by simp [allocateTimings]

lemma allocateTimings_head_start (total segDur endT : ℚ) :
    ∀ (l : List (String × ℚ)) (cur : ℚ), l ≠ [] →
      (allocateTimings total segDur endT l cur).head?.map (fun t => t.2.1) =
        some cur
  | [(w, wt)], cur, _ => rfl
  | (w, wt) :: next :: rest, cur, _ => rfl

lemma allocateTimings_chain (total segDur endT : ℚ) :
    ∀ (l : List (String × ℚ)) (cur : ℚ),
      List.Chain' (fun a b : String × ℚ × ℚ => a.2.2 = b.2.1)
        (allocateTimings total segDur endT l cur)
  | [], _ => by simp [allocateTimings]
  | [(w, wt)], cur => by simp [allocateTimings]
  | (w, wt) :: next :: rest, cur => by
      have ih := allocateTimings_chain total segDur endT (next :: rest)
        (cur + wt / total * segDur)
      have hh := allocateTimings_head_start total segDur endT (next :: rest)
        (cur + wt / total * segDur) (by simp)
      rw [show allocateTimings total segDur endT ((w, wt) :: next :: rest) cur =
        (w, cur, cur + wt / total * segDur) ::
          allocateTimings total segDur endT (next :: rest)
            (cur + wt / total * segDur) from rfl]
      refine List.Chain'.cons' ih ?_
      intro y hy
      rcases hmem : (allocateTimings total segDur endT (next :: rest)
          (cur + wt / total * segDur)).head? with _ | z
      · rw [hmem] at hy
        exact absurd hy (by simp)
      · rw [hmem] at hy hh
        simp only [Option.map_some', Option.some.injEq] at hh
        simp only [Option.mem_def, Option.some.injEq] at hy
        subst hy
        exact hh.symm

lemma allocateTimings_getLast_end (total segDur endT : ℚ) :
    ∀ (l : List (String × ℚ)) (cur : ℚ), l ≠ [] →
      (allocateTimings total segDur endT l cur).getLast?.map (fun t => t.2.2) =
        some endT
  | [(w, wt)], cur, _ => rfl
  | (w, wt) :: next :: rest, cur, _ => by
      have ih := allocateTimings_getLast_end total segDur endT (next :: rest)
        (cur + wt / total * segDur) (by simp)
      rw [show allocateTimings total segDur endT ((w, wt) :: next :: rest) cur =
        (w, cur, cur + wt / total * segDur) ::
          allocateTimings total segDur endT (next :: rest)
            (cur + wt / total * segDur) from rfl]
      rcases hsh : allocateTimings total segDur endT (next :: rest)
          (cur + wt / total * segDur) with _ | ⟨y, ys⟩
      · exact absurd hsh
          (allocateTimings_ne_nil total segDur endT (next :: rest) _ (by simp))
      · rw [hsh] at ih
        rw [List.getLast?_cons_cons]
        exact ih

lemma allocateTimings_start_ge (total segDur endT : ℚ)
    (htot : 0 ≤ total) (hdur : 0 ≤ segDur) :
    ∀ (l : List (String × ℚ)) (cur : ℚ), (∀ p ∈ l, 0 ≤ p.2) →
      ∀ x ∈ allocateTimings total segDur endT l cur, cur ≤ x.2.1
  | [], _, _ => by simp [allocateTimings]
  | [(w, wt)], cur, _ => by
      simp [allocateTimings]
  | (w, wt) :: next :: rest, cur, hw => by
      have hwt : 0 ≤ wt := hw (w, wt) (by simp)
      have hstep : cur ≤ cur + wt / total * segDur := by
        have : 0 ≤ wt / total * segDur :=
          mul_nonneg (div_nonneg hwt htot) hdur
        linarith
      have ih := allocateTimings_start_ge total segDur endT htot hdur (next :: rest)
        (cur + wt / total * segDur) (fun p hp => hw p (by simp [hp]))
      intro x hx
      rw [show allocateTimings total segDur endT ((w, wt) :: next :: rest) cur =
        (w, cur, cur + wt / total * segDur) ::
          allocateTimings total segDur endT (next :: rest)
            (cur + wt / total * segDur) from rfl] at hx
      rcases List.mem_cons.mp hx with h | h
      · subst h
        exact le_rfl
      · exact le_trans hstep (ih x h)

/-- Claim C1 (confirmed): for a segment with at least one word and duration of
at least 0.3s, the word timings exactly partition `[start, end]`: the first
timing starts at `start`, each timing's end equals the next timing's start,
and the last timing's end equals `end` exactly. -/
theorem word_timings_partition_C1 (text : String) (s e : ℚ)
    (hw : pySplit text ≠ []) (hd : 3 / 10 ≤ e - s) :
    ((calculateWordTimings text s e).head?.map (fun t => t.2.1) = some s) ∧
    List.Chain' (fun a b : String × ℚ × ℚ => a.2.2 = b.2.1)
      (calculateWordTimings text s e) ∧
    ((calculateWordTimings text s e).getLast?.map (fun t => t.2.2) = some e) := by
  have hzip : (pySplit text).zip ((pySplit text).map wordWeight) ≠ [] := by
    intro hnil
    have := congrArg List.length hnil
    rw [List.length_zip, List.length_map] at this
    simp only [List.length_nil, Nat.min_self] at this
    exact hw (List.length_eq_zero.mp this)
  have heq : calculateWordTimings text s e =
      allocateTimings ((pySplit text).map wordWeight).sum (e - s) e
        ((pySplit text).zip ((pySplit text).map wordWeight)) s := by
    simp only [calculateWordTimings]
    rw [if_neg hw, if_neg (not_lt.mpr hd)]
  rw [heq]
  exact ⟨allocateTimings_head_start _ _ _ _ _ hzip,
    allocateTimings_chain _ _ _ _ _,
    allocateTimings_getLast_end _ _ _ _ _ hzip⟩

/-- Claim C1 witness: the partition property evaluated on the two-word segment
`"a b"` over `[0, 1]`. -/
theorem word_timings_partition_C1_w :
    ((calculateWordTimings "a b" 0 1).head?.map (fun t => t.2.1) = some 0) ∧
    List.Chain' (fun a b : String × ℚ × ℚ => a.2.2 = b.2.1)
      (calculateWordTimings "a b" 0 1) ∧
    ((calculateWordTimings "a b" 0 1).getLast?.map (fun t => t.2.2) = some 1) :=
  word_timings_partition_C1 "a b" 0 1 (by decide) (by norm_num)

/-- Claim C5 (amended): for a segment with AT LEAST ONE word whose duration is
under 0.3s, exactly one timing is returned, spanning the unsplit text over
`[start, end]`; a segment with no words returns the empty list instead (the
code checks `if not words` before the duration floor). -/
theorem word_timings_floor_C5 (text : String) (s e : ℚ)
    (hw : pySplit text ≠ []) (hd : e - s < 3 / 10) :
    calculateWordTimings text s e = [(text, s, e)] := by
  simp only [calculateWordTimings]
  rw [if_neg hw, if_pos hd]

/-- Claim C5 (counterexample): a zero-word segment under the 0.3s floor yields
the empty list, not a single WordTiming, so the floor behaviour does not hold
"regardless of the segment's word count". -/
theorem word_timings_floor_C5_cex :
    calculateWordTimings "" 0 (1 / 10) = [] ∧
    ([] : List (String × ℚ × ℚ)).length ≠ 1 :=
  ⟨rfl, by decide⟩

/-- Claim C5 witness: the floor evaluated on `"hi there"` over `[0, 0.1]`. -/
theorem word_timings_floor_C5_w :
    calculateWordTimings "hi there" 0 (1 / 10) = [("hi there", 0, 1 / 10)] :=
  word_timings_floor_C5 "hi there" 0 (1 / 10) (by decide) (by norm_num)

/-- `str.strip(chars)` coincides with trailing-only stripping when the first
character is not one of `chars`. -/
lemma pyStrip_eq_trailing_of_head (chars : List Char) (s : String)
    (hc : ∀ c ∈ s.data.head?, c ∉ chars) :
    pyStrip chars s = pyStripTrailing chars s := by
  unfold pyStrip pyStripTrailing
  have hdw : s.data.dropWhile (fun c => decide (c ∈ chars)) = s.data := by
    rcases hd : s.data with _ | ⟨c, rest⟩
    · rfl
    · rw [List.dropWhile_cons]
      have hcn : c ∉ chars := hc c (by rw [hd]; rfl)
      simp [hcn]
  rw [hdw]

/-- Claim C9 (amended): the per-word weight equals
`1.0 + 0.08 * len(word stripped of LEADING AND TRAILING punctuation) +
(0.1 if the word contains punctuation else 0)` — `str.strip` removes the
characters from both ends, not only trailing ones; the spec's trailing-only
reading agrees with the code exactly when the word does not begin with a
punctuation character. -/
theorem word_weight_strip_C9 :
    (∀ word : String, wordWeight word = specWordWeightBoth word) ∧
    (∀ word : String, (∀ c ∈ word.data.head?, c ∉ punctChars) →
      wordWeight word = specWordWeightTrailing word) := by
  constructor
  · intro word
    rfl
  · intro word hc
    calc wordWeight word = specWordWeightBoth word := rfl
      _ = specWordWeightTrailing word := by
          unfold specWordWeightBoth specWordWeightTrailing
          rw [pyStrip_eq_trailing_of_head punctChars word hc]

/-- Claim C9 (counterexample): for the word `",hi"` (leading punctuation) the
code's weight is `1 + 0.08*2 + 0.1` (both-ends strip leaves `"hi"`) while the
claim's trailing-only strip leaves `",hi"` giving `1 + 0.08*3 + 0.1`. -/
theorem word_weight_strip_C9_cex :
    wordWeight ",hi" ≠ specWordWeightTrailing ",hi" := by
  have h1 : wordWeight ",hi" = 1 + (2 : ℚ) * (8 / 100) + 1 / 10 := by
    simp only [wordWeight]
    rw [show pyStrip punctChars ",hi" = "hi" from rfl]
    rw [show ("hi" : String).length = 2 from rfl]
    rw [if_pos (by decide)]
    norm_num
  have h2 : specWordWeightTrailing ",hi" = 1 + (3 : ℚ) * (8 / 100) + 1 / 10 := by
    simp only [specWordWeightTrailing]
    rw [show pyStripTrailing punctChars ",hi" = ",hi" from rfl]
    rw [show (",hi" : String).length = 3 from rfl]
    rw [if_pos (by decide)]
    norm_num
  rw [h1, h2]
  norm_num

/-! ## Speed effect (`IncreaseVideoSpeedEffect.apply`) -/

/-- The ffmpeg filters the speed effect emits. `setptsDiv f` stands for
`setpts=PTS/f`, `atempo f` for `atempo=f`, `fpsFilter n` for `fps=n`,
`pixelFormat s` for `format=s`. -/
inductive AVFilter where
  | setptsDiv (factor : ℚ)
  | atempo (factor : ℚ)
  | fpsFilter (fps : ℕ)
  | pixelFormat (fmt : String)
deriving DecidableEq

/-- The pair of filter chains an effect returns, one per sub-stream. -/
structure AppliedStreams where
  audio : List AVFilter
  video : List AVFilter
deriving DecidableEq

/-- `IncreaseVideoSpeedEffect.apply`: video gets `setpts=PTS/factor`, `fps`,
`format=yuv420p`; audio gets a SINGLE `atempo=factor` stage, whatever the
factor. -/
def increaseVideoSpeedApply (speed_factor : ℚ) (fps : ℕ) : AppliedStreams :=
  { audio := [AVFilter.atempo speed_factor]
    video := [AVFilter.setptsDiv speed_factor, AVFilter.fpsFilter fps,
      AVFilter.pixelFormat "yuv420p"] }

/-- Claim C3 (amended): the speed effect always passes the requested tempo
factor through unchanged as exactly one `atempo` stage — it neither clamps,
nor decomposes out-of-range factors into chained stages, nor rejects them;
keeping the factor within `[0.5, 2.0]` is the caller's responsibility. -/
theorem speed_single_stage_C3 :
    ∀ (speed_factor : ℚ) (fps : ℕ),
      (increaseVideoSpeedApply speed_factor fps).audio =
        [AVFilter.atempo speed_factor] ∧
      (increaseVideoSpeedApply speed_factor fps).video =
        [AVFilter.setptsDiv speed_factor, AVFilter.fpsFilter fps,
          AVFilter.pixelFormat "yuv420p"] :=
  fun _ _ => ⟨rfl, rfl⟩

/-- Claim C3 (counterexample): for the out-of-range factor 3 the effect emits
a single `atempo 3` stage — no decomposition into chained stages and no
rejection (the apply function is total and has no error channel). -/
theorem speed_single_stage_C3_cex :
    (increaseVideoSpeedApply 3 30).audio = [AVFilter.atempo 3] ∧
    ((increaseVideoSpeedApply 3 30).audio.length = 1) ∧
    ¬ ((1 : ℚ) / 2 ≤ 3 ∧ (3 : ℚ) ≤ 2) :=
  ⟨rfl, rfl, by norm_num⟩

/-! ## Aspect-ratio reframe (`VideoRatioConversionEffect.apply`) -/

/-- The scaled dimensions described by the effect's scale filter
`scale=if(gt(iw/ih,r),W,-1):if(gt(iw/ih,r),-1,H)` with `r = W/H`: when the
source is wider than the target ratio, width is fixed to `W` and height is
derived to preserve aspect (`-1`, modelled exactly in ℚ); otherwise height is
fixed to `H` and width derived. The result is then padded onto the `W×H`
canvas, centred, with black bars. -/
def scaledDims (sourceW sourceH targetW targetH : ℚ) : ℚ × ℚ :=
  let tRatio := targetW / targetH
  if sourceW / sourceH > tRatio then
    (targetW, sourceH * targetW / sourceW)
  else
    (sourceW * targetH / sourceH, targetH)

/-- Claim C4 (amended): for positive dimensions, AT LEAST one of the scaled
width/height equals its target and the other never exceeds its target (no
cropping, nothing leaves the canvas): a source strictly wider than the target
ratio is scaled to the target width with strictly smaller height (letterbox);
otherwise to the target height with width at most the target (pillarbox), and
both dimensions hit the targets exactly when the two aspect ratios are
equal — in which case "exactly one equals the target" fails. -/
theorem aspect_reframe_C4 (sourceW sourceH targetW targetH : ℚ)
    (hsw : 0 < sourceW) (hsh : 0 < sourceH)
    (htw : 0 < targetW) (hth : 0 < targetH) :
    ((scaledDims sourceW sourceH targetW targetH).1 = targetW ∧
        (scaledDims sourceW sourceH targetW targetH).2 ≤ targetH ∨
      (scaledDims sourceW sourceH targetW targetH).2 = targetH ∧
        (scaledDims sourceW sourceH targetW targetH).1 ≤ targetW) ∧
    (scaledDims sourceW sourceH targetW targetH).1 ≤ targetW ∧
    (scaledDims sourceW sourceH targetW targetH).2 ≤ targetH ∧
    (targetW / targetH < sourceW / sourceH →
      (scaledDims sourceW sourceH targetW targetH).1 = targetW ∧
      (scaledDims sourceW sourceH targetW targetH).2 < targetH) ∧
    (sourceW / sourceH ≤ targetW / targetH →
      (scaledDims sourceW sourceH targetW targetH).2 = targetH ∧
      (scaledDims sourceW sourceH targetW targetH).1 ≤ targetW) ∧
    (sourceW / sourceH = targetW / targetH →
      (scaledDims sourceW sourceH targetW targetH).1 = targetW ∧
      (scaledDims sourceW sourceH targetW targetH).2 = targetH) := by
  by_cases hc : sourceW / sourceH > targetW / targetH
  · have hd : scaledDims sourceW sourceH targetW targetH =
        (targetW, sourceH * targetW / sourceW) := by
      simp only [scaledDims]
      rw [if_pos hc]
    have hcross : targetW * sourceH < sourceW * targetH :=
      (div_lt_div_iff₀ hth hsh).mp hc
    have hlt : sourceH * targetW / sourceW < targetH := by
      rw [div_lt_iff₀ hsw]
      nlinarith
    rw [hd]
    refine ⟨Or.inl ⟨rfl, le_of_lt hlt⟩, le_refl _, le_of_lt hlt, ?_, ?_, ?_⟩
    · intro _
      exact ⟨rfl, hlt⟩
    · intro hle
      exact absurd hc (not_lt.mpr hle)
    · intro he
      rw [he] at hc
      exact absurd hc (lt_irrefl _)
  · have hd : scaledDims sourceW sourceH targetW targetH =
        (sourceW * targetH / sourceH, targetH) := by
      simp only [scaledDims]
      rw [if_neg hc]
    have hle' : sourceW / sourceH ≤ targetW / targetH := not_lt.mp hc
    have hcross : sourceW * targetH ≤ targetW * sourceH :=
      (div_le_div_iff₀ hsh hth).mp hle'
    have hlew : sourceW * targetH / sourceH ≤ targetW := by
      rw [div_le_iff₀ hsh]
      nlinarith
    rw [hd]
    refine ⟨Or.inr ⟨rfl, hlew⟩, hlew, le_refl _, ?_, ?_, ?_⟩
    · intro hlt
      exact absurd hlt (not_lt.mpr hle')
    · intro _
      exact ⟨rfl, hlew⟩
    · intro he
      refine ⟨?_, rfl⟩
      rw [div_eq_iff (ne_of_gt hsh)]
      have := (div_eq_div_iff (ne_of_gt hsh) (ne_of_gt hth)).mp he
      nlinarith

/-- Claim C4 witness: the amended invariant evaluated on a 1920×1080 source
reframed to 1080×1920 (landscape into vertical). -/
theorem aspect_reframe_C4_w :
    ((scaledDims 1920 1080 1080 1920).1 = 1080 ∧
        (scaledDims 1920 1080 1080 1920).2 ≤ 1920 ∨
      (scaledDims 1920 1080 1080 1920).2 = 1920 ∧
        (scaledDims 1920 1080 1080 1920).1 ≤ 1080) ∧
    (scaledDims 1920 1080 1080 1920).1 ≤ 1080 ∧
    (scaledDims 1920 1080 1080 1920).2 ≤ 1920 ∧
    ((1080 : ℚ) / 1920 < (1920 : ℚ) / 1080 →
      (scaledDims 1920 1080 1080 1920).1 = 1080 ∧
      (scaledDims 1920 1080 1080 1920).2 < 1920) ∧
    ((1920 : ℚ) / 1080 ≤ (1080 : ℚ) / 1920 →
      (scaledDims 1920 1080 1080 1920).2 = 1920 ∧
      (scaledDims 1920 1080 1080 1920).1 ≤ 1080) ∧
    ((1920 : ℚ) / 1080 = (1080 : ℚ) / 1920 →
      (scaledDims 1920 1080 1080 1920).1 = 1080 ∧
      (scaledDims 1920 1080 1080 1920).2 = 1920) :=
  aspect_reframe_C4 1920 1080 1080 1920 (by norm_num) (by norm_num)
    (by norm_num) (by norm_num)

/-- Claim C4 (counterexample): when source and target dimensions coincide
(1080×1920 into 1080×1920) the scaled dimensions are 1080×1920: BOTH equal
their targets, so "exactly one of scaled width/height equals the target" is
false. -/
theorem aspect_reframe_C4_cex :
    ¬ Xor' ((scaledDims 1080 1920 1080 1920).1 = 1080)
        ((scaledDims 1080 1920 1080 1920).2 = 1920) := by
  have hd : scaledDims 1080 1920 1080 1920 = (1080, 1920) := by
    simp only [scaledDims]
    rw [if_neg (by norm_num)]
    norm_num
  rw [hd]
  simp [Xor']

/-! ## Two-line wrapper (`CaptionsEffect._create_strict_two_lines`) -/

/-- The first loop of `_create_strict_two_lines`: greedily pack words into
line 1 while the running length (with one separating space between words)
stays within the budget; on the first word that does not fit, all remaining
words (that word included) become the line-2 words. Returns
`(line1_words, line2_words)`. -/
def fitWords (maxChars : ℕ) : List String → ℕ → List String × List String
  | [], _ => ([], [])
  | word :: rest, currentLength =>
      let testLength :=
        currentLength + word.length + (if 0 < currentLength then 1 else 0)
      if testLength ≤ maxChars then
        let res := fitWords maxChars rest testLength
        (word :: res.1, res.2)
      else
        ([], word :: rest)

/-- The second loop of `_create_strict_two_lines`: greedily pack the line-2
words under the same budget; when a word does not fit, either append an
ellipsis to the packed words (when it still fits), or — when no word has been
packed yet — take the word whole if it fits, else hard-truncate it to
`maxChars - 1` characters (a Python slice, so negative for `maxChars = 0`)
plus an ellipsis. When every word fits (the loop's `else` clause), join them
all. -/
def buildLine2 (maxChars : ℕ) : List String → ℕ → List String → String
  | [], _, acc => joinSpace acc
  | word :: rest, currentLength, acc =>
      let testLength :=
        currentLength + word.length + (if 0 < currentLength then 1 else 0)
      if testLength ≤ maxChars then
        buildLine2 maxChars rest testLength (acc ++ [word])
      else
        if acc ≠ [] then
          let withEllipsis := joinSpace acc ++ "…"
          if withEllipsis.length ≤ maxChars then withEllipsis else joinSpace acc
        else
          if word.length ≤ maxChars then word
          else pySliceTo word ((maxChars : ℤ) - 1) ++ "…"

/-- `CaptionsEffect._create_strict_two_lines(text)`: strip, split, return the
whole text as line 1 when it fits, else pack two lines. -/
def createStrictTwoLines (maxChars : ℕ) (text : String) : String × String :=
  let stripped := pyStripWs text
  let words := pySplit stripped
  if words = [] then ("", "")
  else if stripped.length ≤ maxChars then (stripped, "")
  else
    let fitRes := fitWords maxChars words 0
    let line2Text :=
      if fitRes.2 = [] then "" else buildLine2 maxChars fitRes.2 0 []
    (joinSpace fitRes.1, line2Text)

/-- Claim C7 (amended): for a budget of at least one character, a single word
longer than `max_chars_per_line` comes back hard-truncated to
`maxChars - 1` characters with an ellipsis appended (as line 2, line 1 being
empty), and the truncated line's length is exactly `maxChars`, hence within
the budget. (For `maxChars = 0` the Python slice `word[:-1]` is negative and
the bound fails, see the counterexample.) -/
theorem wrap_truncation_C7 (maxChars : ℕ) (word : String)
    (hmax : 1 ≤ maxChars) (hstrip : pyStripWs word = word)
    (hsplit : pySplit word = [word]) (hlong : maxChars < word.length) :
    createStrictTwoLines maxChars word =
      ("", pySliceTo word ((maxChars : ℤ) - 1) ++ "…") ∧
    (pySliceTo word ((maxChars : ℤ) - 1) ++ "…").length ≤ maxChars := by
  have hlen : (pySliceTo word ((maxChars : ℤ) - 1) ++ "…").length = maxChars := by
    rw [show pySliceTo word ((maxChars : ℤ) - 1) =
        String.mk (word.data.take ((maxChars : ℤ) - 1).toNat) by
      simp only [pySliceTo]
      rw [if_pos (by omega)]]
    rw [show ((maxChars : ℤ) - 1).toNat = maxChars - 1 by omega]
    rw [show ("…" : String) = String.mk ['…'] from rfl]
    rw [show String.mk (word.data.take (maxChars - 1)) ++ String.mk ['…'] =
        String.mk (word.data.take (maxChars - 1) ++ ['…']) from rfl]
    show (word.data.take (maxChars - 1) ++ ['…']).length = maxChars
    simp only [List.length_append, List.length_take, List.length_cons,
      List.length_nil]
    have hdl : word.data.length = word.length := rfl
    omega
  constructor
  · have hfit : fitWords maxChars [word] 0 = ([], [word]) := by
      simp only [fitWords]
      rw [if_neg (by simp only [lt_irrefl, if_neg (lt_irrefl 0)]; omega)]
    have hbl : buildLine2 maxChars [word] 0 [] =
        pySliceTo word ((maxChars : ℤ) - 1) ++ "…" := by
      simp only [buildLine2]
      rw [if_neg (by simp only [lt_irrefl, if_neg (lt_irrefl 0)]; omega)]
      rw [if_neg (by simp), if_neg (by omega)]
    simp only [createStrictTwoLines]
    rw [hstrip, hsplit]
    rw [if_neg (by simp), if_neg (by omega)]
    rw [hfit]
    simp only []
    rw [if_neg (by simp), hbl]
    rfl
  · rw [hlen]

/-- Claim C7 witness: budget 3, word `"abcdef"`: the wrapper yields
`("", "ab…")` and the truncated line has length 3. -/
theorem wrap_truncation_C7_w :
    createStrictTwoLines 3 "abcdef" =
      ("", pySliceTo "abcdef" ((3 : ℤ) - 1) ++ "…") ∧
    (pySliceTo "abcdef" ((3 : ℤ) - 1) ++ "…").length ≤ 3 :=
  wrap_truncation_C7 3 "abcdef" (by decide) (by decide) (by decide) (by decide)

/-- Claim C7 (counterexample): with `max_chars_per_line = 0` and the single
word `"ab"`, the Python truncation `word[:0-1]` keeps one character, so the
output line `"a…"` has length 2 > 0: the claimed bound
`length ≤ max_chars_per_line` fails. -/
theorem wrap_truncation_C7_cex :
    createStrictTwoLines 0 "ab" = ("", "a…") ∧
    ¬ ((createStrictTwoLines 0 "ab").2.length ≤ 0) := by
  decide

/-! ## Caption events (`CaptionsEffect._generate_ass_file` /
`_apply_ffmpeg_captions`) -/

/-- The character loop of `_capitalize_sentence`: uppercase the first
alphabetic character, leave everything else unchanged. -/
def capFirstAlpha : List Char → List Char
  | [] => []
  | c :: rest => if c.isAlpha then c.toUpper :: rest else c :: capFirstAlpha rest

/-- `CaptionsEffect._capitalize_sentence(text)`: empty text is returned as-is,
otherwise the text is stripped and its first alphabetic character
uppercased. -/
def capitalizeSentence (text : String) : String :=
  if text = "" then text
  else
    let stripped := pyStripWs text
    if stripped = "" then stripped
    else String.mk (capFirstAlpha stripped.data)

/-- The events `_generate_ass_file` emits for one speech segment, as
`(start_ms, end_ms)` pairs: empty segments are skipped; the segment's times
are offset by the short's start, the start clamped to ≥ 0 and the end forced
to at least `start + 0.1`; with word highlighting each word timing becomes its
own event, otherwise the whole window is one event. -/
def generateAssEventsForSegment (shortStart : ℚ) (highlight : Bool)
    (seg : SpeechSegment) : List (ℤ × ℤ) :=
  if pyStripWs seg.text = "" then []
  else
    let startTime := max 0 (seg.start_time - shortStart)
    let endTime := max (startTime + 1 / 10) (seg.end_time - shortStart)
    let capitalizedText := capitalizeSentence seg.text
    if highlight then
      (calculateWordTimings capitalizedText startTime endTime).map
        (fun t => (pyInt (t.2.1 * 1000), pyInt (t.2.2 * 1000)))
    else
      [(pyInt (startTime * 1000), pyInt (endTime * 1000))]

/-- All events of `_generate_ass_file` over the short's speech segments. -/
def generateAssEvents (short : YouTubeShortWithSpeech) (highlight : Bool) :
    List (ℤ × ℤ) :=
  short.speech.bind (generateAssEventsForSegment short.start_time highlight)

/-- The `enable=between(t,start,end)` windows `_apply_ffmpeg_captions` draws,
one per segment with non-empty text and non-empty first wrapped line, with
the same clamping as the ASS path. -/
def ffmpegCaptionWindows (maxChars : ℕ) (short : YouTubeShortWithSpeech) :
    List (ℚ × ℚ) :=
  short.speech.filterMap (fun seg =>
    if pyStripWs seg.text = "" then none
    else
      let startTime := max 0 (seg.start_time - short.start_time)
      let endTime := max (startTime + 1 / 10) (seg.end_time - short.start_time)
      let lines := createStrictTwoLines maxChars (capitalizeSentence seg.text)
      if lines.1 = "" then none
      else some (startTime, endTime))

/-! ## Event lemmas -/

lemma wordWeight_nonneg (w : String) : 0 ≤ wordWeight w := by
  simp only [wordWeight]
  have h1 : (0 : ℚ) ≤ ((pyStrip punctChars w).length : ℚ) * (8 / 100) := by
    positivity
  have h2 : (0 : ℚ) ≤
      if punctChars.any (fun c => c ∈ w.data) then (1 : ℚ) / 10 else 0 := by
    split
    · norm_num
    · exact le_refl 0
  linarith

lemma calculateWordTimings_start_ge (text : String) (s e : ℚ) :
    ∀ t ∈ calculateWordTimings text s e, s ≤ t.2.1 := by
  intro t ht
  simp only [calculateWordTimings] at ht
  by_cases hw : pySplit text = []
  · rw [if_pos hw] at ht
    exact absurd ht (by simp)
  · rw [if_neg hw] at ht
    by_cases hd : e - s < 3 / 10
    · rw [if_pos hd] at ht
      simp only [List.mem_singleton] at ht
      subst ht
      exact le_refl s
    · rw [if_neg hd] at ht
      have htot : 0 ≤ ((pySplit text).map wordWeight).sum := by
        apply List.sum_nonneg
        intro x hx
        rcases List.mem_map.mp hx with ⟨w, _, hwx⟩
        rw [← hwx]
        exact wordWeight_nonneg w
      have hdur : 0 ≤ e - s := by
        have := not_lt.mp hd
        linarith
      have hzipw : ∀ p ∈ (pySplit text).zip ((pySplit text).map wordWeight),
          0 ≤ p.2 := by
        intro p hp
        have hmem := (List.of_mem_zip hp).2
        rcases List.mem_map.mp hmem with ⟨w, _, hwx⟩
        rw [← hwx]
        exact wordWeight_nonneg w
      exact allocateTimings_start_ge _ _ _ htot hdur _ s hzipw t ht

lemma pyInt_nonneg (q : ℚ) (h : 0 ≤ q) : 0 ≤ pyInt q := by
  simp only [pyInt]
  rw [if_pos h]
  exact Int.floor_nonneg.mpr h

lemma pyInt_gap (a b : ℚ) (ha : 0 ≤ a) (h : a + 1 / 10 ≤ b) :
    100 ≤ pyInt (b * 1000) - pyInt (a * 1000) := by
  have ha1000 : 0 ≤ a * 1000 := by positivity
  have hb0 : 0 ≤ b := by linarith
  have hb1000 : 0 ≤ b * 1000 := by positivity
  simp only [pyInt]
  rw [if_pos ha1000, if_pos hb1000]
  have h2 : ⌊a * 1000 + ((100 : ℤ) : ℚ)⌋ ≤ ⌊b * 1000⌋ := by
    apply Int.floor_mono
    push_cast
    linarith
  rw [Int.floor_add_int] at h2
  omega

/-- Claim C10 (amended): every caption event has a non-negative start; each
segment's caption window is clamped to start ≥ 0 and end ≥ start + 0.1, so
without word highlighting every ASS event lasts at least 100 ms and every
ffmpeg drawtext window lasts at least 0.1 s — but with word highlighting the
window is subdivided per word, and an individual word event may last LESS than
0.1 s (see the counterexample). -/
theorem caption_event_clamps_C10 :
    (∀ (short : YouTubeShortWithSpeech) (highlight : Bool) (ev : ℤ × ℤ),
        ev ∈ generateAssEvents short highlight → 0 ≤ ev.1) ∧
    (∀ (short : YouTubeShortWithSpeech) (ev : ℤ × ℤ),
        ev ∈ generateAssEvents short false → 100 ≤ ev.2 - ev.1) ∧
    (∀ (maxChars : ℕ) (short : YouTubeShortWithSpeech) (win : ℚ × ℚ),
        win ∈ ffmpegCaptionWindows maxChars short →
          0 ≤ win.1 ∧ win.1 + 1 / 10 ≤ win.2) := by
  refine ⟨?_, ?_, ?_⟩
  · intro short highlight ev hev
    simp only [generateAssEvents, List.mem_bind] at hev
    obtain ⟨seg, hseg, hev⟩ := hev
    simp only [generateAssEventsForSegment] at hev
    by_cases hstrip : pyStripWs seg.text = ""
    · rw [if_pos hstrip] at hev
      exact absurd hev (by simp)
    · rw [if_neg hstrip] at hev
      have hs0 : (0 : ℚ) ≤ max 0 (seg.start_time - short.start_time) :=
        le_max_left 0 _
      cases highlight with
      | true =>
          rw [if_pos rfl] at hev
          obtain ⟨t, ht, hev⟩ := List.mem_map.mp hev
          rw [← hev]
          apply pyInt_nonneg
          have hts := calculateWordTimings_start_ge _ _ _ t ht
          have h0t : 0 ≤ t.2.1 := le_trans hs0 hts
          positivity
      | false =>
          rw [if_neg (by simp)] at hev
          simp only [List.mem_singleton] at hev
          subst hev
          apply pyInt_nonneg
          positivity
  · intro short ev hev
    simp only [generateAssEvents, List.mem_bind] at hev
    obtain ⟨seg, hseg, hev⟩ := hev
    simp only [generateAssEventsForSegment] at hev
    by_cases hstrip : pyStripWs seg.text = ""
    · rw [if_pos hstrip] at hev
      exact absurd hev (by simp)
    · rw [if_neg hstrip, if_neg (by simp)] at hev
      simp only [List.mem_singleton] at hev
      subst hev
      exact pyInt_gap _ _ (le_max_left 0 _) (le_max_left _ _)
  · intro maxChars short win hwin
    simp only [ffmpegCaptionWindows, List.mem_filterMap] at hwin
    obtain ⟨seg, hseg, hf⟩ := hwin
    by_cases hstrip : pyStripWs seg.text = ""
    · rw [if_pos hstrip] at hf
      exact absurd hf (by simp)
    · rw [if_neg hstrip] at hf
      by_cases hline :
          (createStrictTwoLines maxChars (capitalizeSentence seg.text)).1 = ""
      · rw [if_pos hline] at hf
        exact absurd hf (by simp)
      · rw [if_neg hline] at hf
        have hw := Option.some.inj hf
        rw [← hw]
        exact ⟨le_max_left 0 _, le_max_left _ _⟩

/-- Concrete short for settling C10: one 0.3s segment of four words starting
at the clip's origin. -/
def c10Short : YouTubeShortWithSpeech :=
  { title := "t", subscribe_subtitle := "s", start_segment_index := 0,
    end_segment_index := 0, description := "d", estimated_duration := "e",
    tags := [],
    speech := [{ start_time := 0, end_time := 3 / 10, text := "a a a a" }],
    start_time := 0, end_time := 3 / 10 }

lemma c10_events_eval :
    generateAssEvents c10Short true = [(0, 75), (75, 150), (150, 225), (225, 300)] := by
  have hwa : wordWeight "a" = 27 / 25 := by
    simp only [wordWeight]
    rw [show pyStrip punctChars "a" = "a" from rfl]
    rw [show ("a" : String).length = 1 from rfl]
    rw [if_neg (by decide)]
    norm_num
  have hwA : wordWeight "A" = 27 / 25 := by
    simp only [wordWeight]
    rw [show pyStrip punctChars "A" = "A" from rfl]
    rw [show ("A" : String).length = 1 from rfl]
    rw [if_neg (by decide)]
    norm_num
  have hwts : calculateWordTimings "A a a a" 0 (3 / 10) =
      [("A", 0, 3 / 40), ("a", 3 / 40, 3 / 20), ("a", 3 / 20, 9 / 40),
        ("a", 9 / 40, 3 / 10)] := by
    simp only [calculateWordTimings]
    rw [show pySplit "A a a a" = ["A", "a", "a", "a"] from rfl]
    rw [if_neg (by decide), if_neg (by norm_num)]
    simp only [List.map_cons, List.map_nil, hwA, hwa, List.zip_cons_cons,
      List.zip_nil_right, List.sum_cons, List.sum_nil]
    norm_num [allocateTimings]
  have hseg : generateAssEventsForSegment 0 true
      { start_time := 0, end_time := 3 / 10, text := "a a a a" } =
        [(0, 75), (75, 150), (150, 225), (225, 300)] := by
    simp only [generateAssEventsForSegment]
    rw [if_neg (by decide)]
    rw [if_pos trivial]
    rw [show capitalizeSentence "a a a a" = "A a a a" from rfl]
    rw [show max (0 : ℚ) (0 - 0) = 0 by norm_num]
    rw [show max ((0 : ℚ) + 1 / 10) (3 / 10 - 0) = 3 / 10 by
      rw [max_eq_right (by norm_num)]
      norm_num]
    rw [hwts]
    simp only [List.map_cons, List.map_nil]
    norm_num [pyInt, Int.floor_eq_iff]
  show List.bind [{ start_time := 0, end_time := 3 / 10, text := "a a a a" }]
    (generateAssEventsForSegment 0 true) = _
  simp [hseg]

/-- Claim C10 (counterexample): with word highlighting (the default), the
four-word 0.3s segment of `c10Short` is subdivided into word events of 75 ms
each: the first emitted event `(0, 75)` lasts less than 0.1 s, refuting
"every caption event has a duration of at least 0.1 seconds". -/
theorem caption_event_clamps_C10_cex :
    (0, 75) ∈ generateAssEvents c10Short true ∧ ((75 : ℤ) - 0 < 100) := by
  rw [c10_events_eval]
  exact ⟨by simp, by norm_num⟩

/-! ## Effect pipeline executor (`video_effect_service.apply_effects`) -/

/-- A clip file in the executor's working set: the source clip passed in, or
the output materialized by step `i` (whose file name embeds `i`, so outputs of
different steps are distinct files, distinct from the source). -/
inductive ClipPath where
  | sourceClip
  | stepOutput (i : ℕ)
deriving DecidableEq

/-- The loop of `apply_effects` over the effect indices: before writing step
`i`, the previous output (when one exists) is appended to `old_video_files`;
step `i` materializes `stepOutput i`, which becomes the current video. Returns
`(curr_video_path, old_video_files)` at loop exit. -/
def applyEffectsGo : List ℕ → ClipPath → Option ClipPath → List ClipPath →
    ClipPath × List ClipPath
  | [], currVideoPath, _, oldVideoFiles => (currVideoPath, oldVideoFiles)
  | i :: rest, _, outputFile, oldVideoFiles =>
      let oldVideoFiles' := match outputFile with
        | none => oldVideoFiles
        | some f => oldVideoFiles ++ [f]
      applyEffectsGo rest (ClipPath.stepOutput i) (some (ClipPath.stepOutput i))
        oldVideoFiles'

/-- `apply_effects` with `numEffects` effects: run the loop from the source
clip; the first component is the returned path, the second the list of files
deleted at the end (`_delete_old_files(old_video_files)` unless `debug`). -/
def applyEffects (numEffects : ℕ) (debug : Bool) : ClipPath × List ClipPath :=
  let res := applyEffectsGo (List.range numEffects) ClipPath.sourceClip none []
  (res.1, if debug then [] else res.2)

lemma applyEffectsGo_range' :
    ∀ (m k : ℕ) (curr : ClipPath) (prev : ClipPath) (old : List ClipPath),
      applyEffectsGo (List.range' k (m + 1)) curr (some prev) old =
        (ClipPath.stepOutput (k + m),
          old ++ [prev] ++ (List.range' k m).map ClipPath.stepOutput)
  | 0, k, curr, prev, old => by
      simp [List.range', applyEffectsGo]
  | m + 1, k, curr, prev, old => by
      rw [show List.range' k (m + 1 + 1) = k :: List.range' (k + 1) (m + 1)
        from rfl]
      rw [show applyEffectsGo (k :: List.range' (k + 1) (m + 1)) curr (some prev) old =
        applyEffectsGo (List.range' (k + 1) (m + 1)) (ClipPath.stepOutput k)
          (some (ClipPath.stepOutput k)) (old ++ [prev]) from rfl]
      rw [applyEffectsGo_range' m (k + 1) (ClipPath.stepOutput k)
        (ClipPath.stepOutput k) (old ++ [prev])]
      rw [show List.range' k (m + 1) = k :: List.range' (k + 1) m from rfl]
      simp only [List.map_cons, List.append_assoc, List.cons_append,
        List.nil_append, List.singleton_append]
      rw [show k + 1 + m = k + (m + 1) by omega]

/-- Claim C8 (confirmed): with `m+1` effects and `debug` off, `apply_effects`
returns the last step's output and deletes exactly the `m` earlier
intermediates — never the source clip and never the returned final output;
with `debug` on nothing is deleted. -/
theorem pipeline_cleanup_C8 (m : ℕ) :
    applyEffects (m + 1) false =
      (ClipPath.stepOutput m, (List.range m).map ClipPath.stepOutput) ∧
    ClipPath.sourceClip ∉ (applyEffects (m + 1) false).2 ∧
    (applyEffects (m + 1) false).1 ∉ (applyEffects (m + 1) false).2 ∧
    applyEffects (m + 1) true = (ClipPath.stepOutput m, []) := by
  have hgo : applyEffectsGo (List.range (m + 1)) ClipPath.sourceClip none [] =
      (ClipPath.stepOutput m, (List.range m).map ClipPath.stepOutput) := by
    rw [List.range_eq_range']
    cases m with
    | zero => rfl
    | succ m' =>
        rw [show List.range' 0 (m' + 1 + 1) = 0 :: List.range' 1 (m' + 1)
          from rfl]
        rw [show applyEffectsGo (0 :: List.range' 1 (m' + 1)) ClipPath.sourceClip
            none [] =
          applyEffectsGo (List.range' 1 (m' + 1)) (ClipPath.stepOutput 0)
            (some (ClipPath.stepOutput 0)) [] from rfl]
        rw [applyEffectsGo_range' m' 1 (ClipPath.stepOutput 0)
          (ClipPath.stepOutput 0) []]
        rw [List.range_eq_range']
        rw [show List.range' 0 (m' + 1) = 0 :: List.range' 1 m' from rfl]
        simp only [List.map_cons, List.nil_append, List.singleton_append]
        rw [show 1 + m' = m' + 1 by omega]
  have hfalse : applyEffects (m + 1) false =
      (ClipPath.stepOutput m, (List.range m).map ClipPath.stepOutput) := by
    simp only [applyEffects, hgo]
    rfl
  have htrue : applyEffects (m + 1) true = (ClipPath.stepOutput m, []) := by
    simp only [applyEffects, hgo]
    rfl
  refine ⟨hfalse, ?_, ?_, htrue⟩
  · rw [hfalse]
    simp only [List.mem_map]
    rintro ⟨i, _, hi⟩
    exact absurd hi (by simp)
  · rw [hfalse]
    simp only [List.mem_map]
    rintro ⟨i, hmem, hi⟩
    have : i = m := by
      have := ClipPath.stepOutput.inj hi
      omega
    subst this
    exact absurd (List.mem_range.mp hmem) (lt_irrefl i)
